import Mathlib

/-!
# Verification of the Tag Applicability Rules Engine

Shallow embedding of `app/services/tagging_rules.py` from the
`sdxl-dataset-tag-tidy` repository.  Strings are modelled as `List Char`
(`Str`); Python `Optional[bool]` signal values become `Option Bool`;
dictionaries become association lists looked up with `lookupA`.
Python's Unicode-aware `str.lower` / whitespace handling is modelled over
the ASCII range, which is what the rule documents use.
-/

namespace TagTidy

abbrev Str := List Char

/-! ## Canonicalizer (`_canonicalize_tag`)

Python: `" ".join(str(tag).strip().lower().replace("-", " ").split())`.
-/

/-- Python `str.split()` / `str.strip()` whitespace class (ASCII part). -/
def isSpaceChar (c : Char) : Bool :=
  c = ' ' || c = '\t' || c = '\n' || c = '\r' || c = '\x0b' || c = '\x0c'

/-- Python `str.lower`, ASCII range: map `A`-`Z` to `a`-`z`. -/
def lowerChar (c : Char) : Char :=
  if 65 ≤ c.toNat ∧ c.toNat ≤ 90 then Char.ofNat (c.toNat + 32) else c

/-- Python `str.strip()`: drop leading and trailing whitespace. -/
def stripList (s : Str) : Str :=
  ((s.dropWhile isSpaceChar).reverse.dropWhile isSpaceChar).reverse

/-- Python `str.replace("-", " ")`. -/
def replaceHyphens (s : Str) : Str :=
  s.map (fun c => if c = '-' then ' ' else c)

/-- Helper for `splitWS`: accumulate the current word (reversed) while
scanning; mirrors Python `str.split()` with no separator argument. -/
def splitWSAux : List Char → List Char → List Str
  | [], acc => if acc.isEmpty then [] else [acc.reverse]
  | c :: rest, acc =>
    if isSpaceChar c then
      if acc.isEmpty then splitWSAux rest [] else acc.reverse :: splitWSAux rest []
    else splitWSAux rest (c :: acc)

/-- Python `str.split()`: split on runs of whitespace, dropping empties. -/
def splitWS (s : Str) : List Str := splitWSAux s []

/-- Python `" ".join(words)`. -/
def joinWords : List Str → Str
  | [] => []
  | [w] => w
  | w :: w2 :: ws => w ++ ' ' :: joinWords (w2 :: ws)

/-- `_canonicalize_tag`: strip, lowercase, hyphen→space, collapse runs of
whitespace to single spaces. -/
def canonicalize (s : Str) : Str :=
  joinWords (splitWS (replaceHyphens ((stripList s).map lowerChar)))

/-! ## Data model (loaded state of `TaggingSpec` / `TaggingPolicy`)

The structures mirror the fields the Python loader builds: canonical
value sets become lists queried by membership, dictionaries become
association lists queried by `lookupA` (first match, as the JSON objects
have unique keys). -/

/-- Association-list lookup, modelling Python `dict.get`. -/
def lookupA {α : Type} (l : List (Str × α)) (k : Str) : Option α :=
  (l.find? (fun p => p.1 == k)).map (fun p => p.2)

/-- `dict.get(k, d)`. -/
def lookupD (l : List (Str × Str)) (k d : Str) : Str :=
  (lookupA l k).getD d

/-- Python truthiness filter for an optional string: `None` and `""` are
falsy. -/
def truthyStr : Option Str → Option Str
  | some s => if s.isEmpty then none else some s
  | none => none

/-- Loaded category definition (`CategoryDefinition` dataclass). -/
structure CategoryDefinition where
  id : Str
  tier : Str
  cardinality_min : Int
  cardinality_max : Int
  applicability : Str
  allowed_values : List Str
  preferred_values : List Str
  allowed_values_raw : List Str
  preferred_values_raw : List Str
  allows_freeform : Bool
deriving DecidableEq

/-- One entry of `policy["category_policy"]`.  `missing` distinguishes a
present key holding `null` (`some none`) from an absent key (`none`),
because `has_category_missing_rule` tests key presence while
`missing_severity` reads the value. -/
structure CategoryPolicyEntry where
  missing : Option (Option Str)
  only_when_signal : Option Str
  unless_signal : List Str
  relaxed_missing : Option Str
deriving DecidableEq

def emptyCategoryPolicy : CategoryPolicyEntry := ⟨none, none, [], none⟩

/-- Loaded `TaggingPolicy` state (after the version checks passed). -/
structure TaggingPolicy where
  defaults : List (Str × Str)
  category_policy : List (Str × CategoryPolicyEntry)
  tag_policy : List (Str × Option Str)
deriving DecidableEq

/-- The raw policy document, before the constructor's version checks. -/
structure PolicyDoc where
  policy_version : Str
  taxonomy_version : Str
  graph_version : Str
  defaults : List (Str × Str)
  category_policy : List (Str × CategoryPolicyEntry)
  tag_policy : List (Str × Option Str)
deriving DecidableEq

/-- `TaggingPolicy.__init__`: fatal `ValueError` on version mismatch,
modelled as `Except`. -/
def TaggingPolicy.load (doc : PolicyDoc) (taxonomy_version graph_version : Str) :
    Except Str TaggingPolicy :=
  if doc.taxonomy_version ≠ taxonomy_version then
    Except.error ("Tagging policy taxonomy version mismatch".toList)
  else if doc.graph_version ≠ graph_version then
    Except.error ("Tagging policy graph version mismatch".toList)
  else
    Except.ok ⟨doc.defaults, doc.category_policy, doc.tag_policy⟩

/-- `self.category_policy.get(category_id) or {}`. -/
def TaggingPolicy.getCP (p : TaggingPolicy) (category_id : Str) : CategoryPolicyEntry :=
  (lookupA p.category_policy category_id).getD emptyCategoryPolicy

/-- `"missing" in self.category_policy.get(category_id, {})`. -/
def TaggingPolicy.has_category_missing_rule (p : TaggingPolicy) (category_id : Str) : Bool :=
  (p.getCP category_id).missing.isSome

/-- `TaggingPolicy._signal_allows_missing`. -/
def TaggingPolicy.signal_allows_missing (p : TaggingPolicy) (category_id : Str)
    (signals : Str → Option Bool) : Bool :=
  let policy := p.getCP category_id
  match truthyStr policy.only_when_signal with
  | some only_when_signal => signals only_when_signal == some true
  | none => !(policy.unless_signal.any (fun sig => signals sig == some true))

/-- `TaggingPolicy.missing_severity`.  The Python code re-reads
`category_policy.get("missing")` in the `triggered` branch (which is
`None` whenever that branch is reached) and finally returns
`relaxed_missing or severity` where `relaxed_missing` is always `None`
because `relaxed` already returned early. -/
def TaggingPolicy.missing_severity (p : TaggingPolicy) (category_id : Str)
    (signals : Str → Option Bool) (relaxed required triggered : Bool) : Option Str :=
  if relaxed then some ("ignore".toList)
  else
    let category_policy := p.getCP category_id
    if !(p.signal_allows_missing category_id signals) then some ("ignore".toList)
    else
      match category_policy.missing.join with
      | some severity => some severity
      | none =>
        if required then some (lookupD p.defaults ("missing_required".toList) ("error".toList))
        else if triggered && p.has_category_missing_rule category_id then
          category_policy.missing.join
        else none

/-- `TaggingPolicy.severity_for_condition`. -/
def TaggingPolicy.severity_for_condition (p : TaggingPolicy) (condition_type : Str) : Str :=
  lookupD p.defaults condition_type ("error".toList)

/-- `TaggingPolicy.tag_severity`: `tag_policy.get(tag) or
tag_policy.get(canonicalize(tag))`, then the entry's severity. -/
def TaggingPolicy.tag_severity (p : TaggingPolicy) (tag : Str) : Option Str :=
  (match lookupA p.tag_policy tag with
   | some entry => some entry
   | none => lookupA p.tag_policy (canonicalize tag)).join

/-- A constraint's `when` clause: optional signal name and expected value. -/
structure Condition where
  signal : Option Str
  equals : Option Bool
deriving DecidableEq

/-- Derivation expression tree for derived signals (`_eval_derivation`):
`tag_present`, `not`, or an unrecognized op (evaluating to unknown). -/
inductive Derivation where
  | tag_present (tag : Str)
  | notD (arg : Derivation)
  | unknownOp
deriving DecidableEq

/-- One entry of a `require` list: `{category, min, max?}`. -/
structure Requirement where
  category : Option Str
  min : Int
  max : Option Int
deriving DecidableEq

/-- Loaded `TaggingSpec` state after `_load_categories` / `_load_constraints`. -/
structure TaggingSpec where
  categories : List CategoryDefinition
  tag_lookup : List (Str × Str)
  singleton_categories : List Str
  relaxations : List (Condition × List (Option Str))
  require_constraints : List (Condition × List Requirement)
  forbidden_constraints : List (Condition × List Str)
  derived_signals : List (Str × Derivation)
  external_signals : List Str
  tier3_allowed : List Str
  policy : TaggingPolicy

/-- `self.categories.get(cid)` (dict keyed by category id). -/
def TaggingSpec.findCategory (spec : TaggingSpec) (cid : Str) : Option CategoryDefinition :=
  spec.categories.find? (fun c => c.id == cid)

/-- `TaggingSpec._condition_matches`: no signal name, or an unknown value,
never matches; otherwise the known value must equal the expected one. -/
def conditionMatches (when : Condition) (signals : Str → Option Bool) : Bool :=
  match when.signal with
  | none => false
  | some signal =>
    match signals signal with
    | none => false
    | some value => some value == when.equals

/-- `TaggingSpec._eval_derivation` over the canonical tag set. -/
def evalDerivation : Derivation → List Str → Option Bool
  | .tag_present tag, tags => some (decide (canonicalize tag ∈ tags))
  | .notD arg, tags =>
    match evalDerivation arg tags with
    | none => none
    | some nested => some (!nested)
  | .unknownOp, _ => none

/-- `TaggingSpec.evaluate_signals`: external signals are looked up in the
caller mapping, derived signals are evaluated from the tag set (and, being
written second, shadow an external signal of the same id). -/
def TaggingSpec.evaluate_signals (spec : TaggingSpec) (tags : List Str)
    (external_signals : Str → Option Bool) : Str → Option Bool :=
  fun signal_id =>
    match lookupA spec.derived_signals signal_id with
    | some derivation => evalDerivation derivation tags
    | none =>
      if signal_id ∈ spec.external_signals then external_signals signal_id else none

/-- `TaggingSpec.relaxed_categories`: categories named (with a truthy id)
by relax rules whose condition matches. -/
def TaggingSpec.relaxed_categories (spec : TaggingSpec)
    (signals : Str → Option Bool) : List Str :=
  (spec.relaxations.filter (fun r => conditionMatches r.1 signals)).flatMap
    (fun r => r.2.filterMap truthyStr)

/-- Python `pat in s` on strings: `pat` occurs as a contiguous substring. -/
def startsWithList : Str → Str → Bool
  | [], _ => true
  | _ :: _, [] => false
  | p :: ps, c :: cs => p == c && startsWithList ps cs

def hasSubstring (pat : Str) : Str → Bool
  | [] => startsWithList pat []
  | c :: cs => startsWithList pat (c :: cs) || hasSubstring pat cs

/-- `TaggingSpec._soft_category_for_freeform`. -/
def TaggingSpec.soft_category_for_freeform (spec : TaggingSpec) (canonical : Str) :
    Option Str :=
  spec.categories.findSome? (fun category =>
    if category.allows_freeform && category.id == "arm_hand_position".toList &&
        (hasSubstring ("arm".toList) canonical || hasSubstring ("hand".toList) canonical) then
      some category.id
    else none)

/-- The category a canonical tag is assigned to in `categorize_tags`:
lookup table first, then the freeform soft category; tier-3 tags and
unknown tags are uncategorized. -/
def TaggingSpec.assignedCategory (spec : TaggingSpec) (canonical : Str) : Option Str :=
  match truthyStr (lookupA spec.tag_lookup canonical) with
  | some category_id => some category_id
  | none => truthyStr (spec.soft_category_for_freeform canonical)

/-- `TaggingSpec.categorize_tags`: per category (in declaration order) the
canonical input tags assigned to it, empty categories omitted. -/
def TaggingSpec.categorize_tags (spec : TaggingSpec) (tags : List Str) :
    List (Str × List Str) :=
  (spec.categories.map (fun c =>
    (c.id, (tags.map canonicalize).filter (fun t => spec.assignedCategory t == some c.id)))
  ).filter (fun p => !p.2.isEmpty)

/-- `len(categorized.get(category, []))`. -/
def catCount (categorized : List (Str × List Str)) (cid : Str) : Nat :=
  ((lookupA categorized cid).getD []).length

/-! ## Engine (`TaggingRulesEngine`) -/

/-- `_dedupe_preserve` with its `seen` set made explicit. -/
def dedupeAux : List Str → List Str → List Str
  | _, [] => []
  | seen, x :: xs =>
    if x ∈ seen then dedupeAux seen xs else x :: dedupeAux (x :: seen) xs

/-- `_dedupe_preserve`: drop duplicates, keeping first-seen order. -/
def dedupePreserve (items : List Str) : List Str := dedupeAux [] items

/-- Hint buckets that `_route_condition` can append a category to. -/
inductive HintBucket where
  | missing_required
  | possibly_missing
  | not_required
deriving DecidableEq

/-- The severity→bucket mapping of `_route_condition`:
error→missing_required, warning/info→possibly_missing, ignore→not_required,
anything else unmapped. -/
def severityBucket (severity : Str) : Option HintBucket :=
  if severity == "error".toList then some .missing_required
  else if severity == "warning".toList then some .possibly_missing
  else if severity == "ignore".toList then some .not_required
  else if severity == "info".toList then some .possibly_missing
  else none

/-- `_route_condition` for `condition_type="missing_required"`: a `None`
severity routes nowhere; a relaxed category goes to not_required
unconditionally; otherwise the severity mapping decides. -/
def routeMissingBucket (severity : Option Str) (relaxed : Bool) : Option HintBucket :=
  match severity with
  | none => none
  | some s => if relaxed then some .not_required else severityBucket s

/-- Matched require-rule entries `(category, min, max?)`, with falsy
category names skipped (`if not category: continue`). -/
def matchedRequireItems (spec : TaggingSpec) (signals : Str → Option Bool) :
    List (Str × Int × Option Int) :=
  (spec.require_constraints.filter (fun c => conditionMatches c.1 signals)).flatMap
    (fun c => c.2.filterMap (fun requirement =>
      match truthyStr requirement.category with
      | some category => some (category, requirement.min, requirement.max)
      | none => none))

/-- `requirements_by_category.get(cid, [])`. -/
def requirementsFor (spec : TaggingSpec) (signals : Str → Option Bool) (cid : Str) :
    List Int :=
  (matchedRequireItems spec signals).filterMap
    (fun it => if it.1 == cid then some it.2.1 else none)

/-- `category_id in requirements_by_category`. -/
def isTriggered (spec : TaggingSpec) (signals : Str → Option Bool) (cid : Str) : Bool :=
  (matchedRequireItems spec signals).any (fun it => it.1 == cid)

/-- Require-rule maxima exceeded (first loop of `_build_hints`): each such
category is appended to the `invalid` list. -/
def requireMaxViolations (spec : TaggingSpec) (signals : Str → Option Bool)
    (categorized : List (Str × List Str)) : List Str :=
  (matchedRequireItems spec signals).filterMap (fun it =>
    match it.2.2 with
    | some maximum => if (catCount categorized it.1 : Int) > maximum then some it.1 else none
    | none => none)

/-- Matched forbid rules' canonical tags present in the tag set. -/
def forbiddenHits (spec : TaggingSpec) (signals : Str → Option Bool)
    (tag_set : List Str) : List Str :=
  (spec.forbidden_constraints.filter (fun c => conditionMatches c.1 signals)).flatMap
    (fun c => c.2.filter (fun tag => tag ∈ tag_set))

/-- The unconditional singleton-cardinality check (third loop of
`_build_hints`): a categorized entry with a singleton category or static
max 1 and more than one value. -/
def singletonViolations (spec : TaggingSpec) (categorized : List (Str × List Str)) :
    List Str :=
  categorized.filterMap (fun p =>
    if (p.1 ∈ spec.singleton_categories ||
        (spec.findCategory p.1).map (fun c => c.cardinality_max) == some 1) &&
        p.2.length > 1 then
      some p.1
    else none)

/-- One iteration of the missing-category loop of `_build_hints`: the
bucket (if any) the category's missing finding is routed to. -/
def missingFindingFor (spec : TaggingSpec) (signals : Str → Option Bool)
    (relaxedSet : List Str) (categorized : List (Str × List Str))
    (definition : CategoryDefinition) : Option (Str × HintBucket) :=
  let category_id := definition.id
  let present : Int := (catCount categorized category_id : Int)
  let required_minimum : Int :=
    (requirementsFor spec signals category_id).foldl max definition.cardinality_min
  let required : Bool := decide (required_minimum > 0)
  let triggered : Bool := isTriggered spec signals category_id
  let relaxed : Bool := relaxedSet.contains category_id
  let should_check : Bool :=
    required || triggered || spec.policy.has_category_missing_rule category_id
  if !should_check then none
  else
    let missing_expected : Bool :=
      (decide (required_minimum > 0) && decide (present < required_minimum)) ||
      (decide (required_minimum = 0) && decide (present = 0))
    if !missing_expected then none
    else
      let severity :=
        spec.policy.missing_severity category_id signals relaxed required triggered
      (routeMissingBucket severity relaxed).map (fun b => (category_id, b))

/-- The missing-category loop of `_build_hints` over all categories. -/
def missingFindings (spec : TaggingSpec) (signals : Str → Option Bool)
    (relaxedSet : List Str) (categorized : List (Str × List Str)) :
    List (Str × HintBucket) :=
  spec.categories.filterMap (missingFindingFor spec signals relaxedSet categorized)

/-- The per-tag policy loop of `_build_hints`: tags of the tag set with a
truthy declared severity. -/
def tagPolicyFindings (p : TaggingPolicy) (tag_set : List Str) : List (Str × Str) :=
  tag_set.filterMap (fun tag =>
    match p.tag_severity tag with
    | some severity => if severity.isEmpty then none else some (tag, severity)
    | none => none)

/-- Entries of a finding list routed to bucket `b`. -/
def bucketItems (l : List (Str × HintBucket)) (b : HintBucket) : List Str :=
  l.filterMap (fun p => if p.2 = b then some p.1 else none)

/-- Tags of the per-tag policy loop routed (relaxed=False,
condition_type="info") to bucket `b`. -/
def tagPolicyBucket (p : TaggingPolicy) (tag_set : List Str) (b : HintBucket) : List Str :=
  (tagPolicyFindings p tag_set).filterMap
    (fun pr => if severityBucket pr.2 = some b then some pr.1 else none)

/-- The result of `evaluate`: the three always-present buckets, and the
`forbidden` / `invalid` / `info` keys included only when non-empty. -/
structure Hints where
  missing_required : List Str
  possibly_missing : List Str
  not_required : List Str
  forbidden : Option (List Str)
  invalid : Option (List Str)
  info : Option (List Str)
deriving DecidableEq

/-- `h.invalid` as a list (`[]` when the key is absent). -/
def Hints.invalidItems (h : Hints) : List Str := h.invalid.getD []

/-- `h.forbidden` as a list (`[]` when the key is absent). -/
def Hints.forbiddenItems (h : Hints) : List Str := h.forbidden.getD []

/-- `TaggingRulesEngine._build_hints`, with each loop's bucket
contributions concatenated in the program's append order. -/
def buildHints (spec : TaggingSpec) (categorized : List (Str × List Str))
    (signals : Str → Option Bool) (relaxed_categories : List Str)
    (tag_set : List Str) : Hints :=
  let invalid1 := requireMaxViolations spec signals categorized
  let forb := forbiddenHits spec signals tag_set
  let invalid2 := singletonViolations spec categorized
  let mf := missingFindings spec signals relaxed_categories categorized
  let nr1 :=
    if spec.policy.severity_for_condition ("invalid".toList) == "ignore".toList then
      invalid1
    else []
  let nr2 :=
    if spec.policy.severity_for_condition ("forbidden".toList) == "ignore".toList then
      forb
    else []
  let invalidAll := invalid1 ++ invalid2
  let infoAll := (tagPolicyFindings spec.policy tag_set).map (fun pr => pr.1)
  { missing_required := dedupePreserve
      (bucketItems mf .missing_required ++
        tagPolicyBucket spec.policy tag_set .missing_required)
  , possibly_missing := dedupePreserve
      (bucketItems mf .possibly_missing ++
        tagPolicyBucket spec.policy tag_set .possibly_missing)
  , not_required := dedupePreserve
      (nr1 ++ nr2 ++ bucketItems mf .not_required ++
        tagPolicyBucket spec.policy tag_set .not_required)
  , forbidden := if forb.isEmpty then none else some (dedupePreserve forb)
  , invalid := if invalidAll.isEmpty then none else some (dedupePreserve invalidAll)
  , info := if infoAll.isEmpty then none else some (dedupePreserve infoAll) }

/-- `[_canonicalize_tag(tag) for tag in tags if str(tag).strip()]`. -/
def normalizeTags (tags : List Str) : List Str :=
  (tags.filter (fun t => !(stripList t).isEmpty)).map canonicalize

/-- `TaggingRulesEngine.evaluate`. -/
def TaggingRulesEngine.evaluate (spec : TaggingSpec) (tags : List Str)
    (external_signals : Str → Option Bool) : Hints :=
  buildHints spec
    (spec.categorize_tags (normalizeTags tags))
    (spec.evaluate_signals (dedupePreserve (normalizeTags tags)) external_signals)
    (spec.relaxed_categories
      (spec.evaluate_signals (dedupePreserve (normalizeTags tags)) external_signals))
    (dedupePreserve (normalizeTags tags))

/-- `TaggingRulesEngine.categorize`. -/
def TaggingRulesEngine.categorize (spec : TaggingSpec) (tags : List Str) :
    List (Str × List Str) :=
  spec.categorize_tags (normalizeTags tags)

/-- The result shape of `hint_options`. -/
structure HintOptionsResult where
  category : Str
  options : List Str
  allows_freeform : Bool
deriving DecidableEq

/-- `TaggingRulesEngine.hint_options`: preferred values first, then the
remaining allowed values, both in raw taxonomy order without duplicates;
an unknown category id yields no options and `allows_freeform = false`. -/
def TaggingRulesEngine.hint_options (spec : TaggingSpec) (category_id : Str) :
    HintOptionsResult :=
  match spec.findCategory category_id with
  | none => ⟨category_id, [], false⟩
  | some category =>
    ⟨category_id,
      dedupePreserve (category.preferred_values_raw ++ category.allowed_values_raw),
      category.allows_freeform⟩

/-! ## Concrete engine instances

Small loaded-document states used to evaluate the engine at concrete
inputs. -/

/-- A category definition with the given id, cardinality bounds and
canonical allowed values. -/
def mkCat (cid : Str) (mn mx : Int) (vals : List Str) : CategoryDefinition :=
  ⟨cid, "tier_1".toList, mn, mx, "generally_applicable".toList, vals, [], vals, [], false⟩

def emptyPolicy : TaggingPolicy := ⟨[], [], []⟩

/-- An engine whose policy demotes the `missing_required` default severity
to `warning`; category `framing` has static minimum 1. -/
def exDemoted : TaggingSpec :=
  { categories := [mkCat ("framing".toList) 1 1 ["full body".toList]]
  , tag_lookup := [("full body".toList, "framing".toList)]
  , singleton_categories := []
  , relaxations := []
  , require_constraints := []
  , forbidden_constraints := []
  , derived_signals := []
  , external_signals := []
  , tier3_allowed := []
  , policy := { defaults := [("missing_required".toList, "warning".toList)]
              , category_policy := [], tag_policy := [] } }

/-- Same engine with an empty policy (default severities). -/
def exPlain : TaggingSpec :=
  { exDemoted with policy := emptyPolicy }

/-- An engine where category `pose` has static minimum 0 but carries a
category-policy `missing: warning` entry. -/
def exMinZero : TaggingSpec :=
  { categories := [mkCat ("pose".toList) 0 1 ["standing".toList]]
  , tag_lookup := [("standing".toList, "pose".toList)]
  , singleton_categories := []
  , relaxations := []
  , require_constraints := []
  , forbidden_constraints := []
  , derived_signals := []
  , external_signals := []
  , tier3_allowed := []
  , policy := { defaults := []
              , category_policy :=
                  [("pose".toList, ⟨some (some ("warning".toList)), none, [], none⟩)]
              , tag_policy := [] } }

/-- An engine with an external signal `x` and a relax rule on `x == true`
for category `pose`, whose static minimum is 0. -/
def exRelaxZero : TaggingSpec :=
  { categories := [mkCat ("pose".toList) 0 1 ["standing".toList]]
  , tag_lookup := [("standing".toList, "pose".toList)]
  , singleton_categories := []
  , relaxations := [(⟨some ("x".toList), some true⟩, [some ("pose".toList)])]
  , require_constraints := []
  , forbidden_constraints := []
  , derived_signals := []
  , external_signals := ["x".toList]
  , tier3_allowed := []
  , policy := emptyPolicy }

/-- Same engine with `pose` statically required (minimum 1). -/
def exRelaxOne : TaggingSpec :=
  { exRelaxZero with
      categories := [mkCat ("pose".toList) 1 1 ["standing".toList]] }

/-- An engine with an external signal `s` and a require rule on `s == true`
giving category `expression` (static max 1) a rule maximum of 0. -/
def exReqMax : TaggingSpec :=
  { categories := [mkCat ("expression".toList) 0 1 ["smile".toList, "frown".toList]]
  , tag_lookup := [("smile".toList, "expression".toList),
                   ("frown".toList, "expression".toList)]
  , singleton_categories := []
  , relaxations := []
  , require_constraints :=
      [(⟨some ("s".toList), some true⟩, [⟨some ("expression".toList), 0, some 0⟩])]
  , forbidden_constraints := []
  , derived_signals := []
  , external_signals := ["s".toList]
  , tier3_allowed := []
  , policy := emptyPolicy }

/-- The external-signal mapping supplying only `x := true`. -/
def extX : Str → Option Bool := fun s => if s == "x".toList then some true else none

/-- The external-signal mapping supplying only `s := true`. -/
def extS : Str → Option Bool := fun s => if s == "s".toList then some true else none

/-- The empty external-signal mapping. -/
def extNone : Str → Option Bool := fun _ => none

/-! ### Canonicalizer lemmas -/

theorem char_toNat_ofNat {n : Nat} (h : n.isValidChar) : (Char.ofNat n).toNat = n := by
  unfold Char.ofNat
  rw [dif_pos h]
  rfl

theorem lowerChar_toNat_not_upper (c : Char) :
    ¬(65 ≤ (lowerChar c).toNat ∧ (lowerChar c).toNat ≤ 90) := by
  unfold lowerChar
  split
  · next h =>
    have hval : (c.toNat + 32).isValidChar := by
      rcases h with ⟨h1, h2⟩
      left
      omega
    rw [char_toNat_ofNat hval]
    omega
  · next h => exact h

theorem lowerChar_eq_self_of_not_upper (c : Char)
    (h : ¬(65 ≤ c.toNat ∧ c.toNat ≤ 90)) : lowerChar c = c := by
  rw [lowerChar, if_neg h]

theorem lowerChar_idem (c : Char) : lowerChar (lowerChar c) = lowerChar c :=
  lowerChar_eq_self_of_not_upper (lowerChar c) (lowerChar_toNat_not_upper c)

theorem map_eq_self_of_fixed {α : Type} (f : α → α) :
    ∀ (l : List α), (∀ c ∈ l, f c = c) → l.map f = l
  | [], _ => rfl
  | c :: cs, h => by
    simp only [List.map_cons]
    rw [h c (List.mem_cons_self c cs), map_eq_self_of_fixed f cs]
    intro x hx
    exact h x (List.mem_cons_of_mem c hx)

theorem splitWSAux_words {P : Char → Prop} :
    ∀ (s acc : List Char),
      (∀ c ∈ s, isSpaceChar c = false → P c) →
      (∀ c ∈ acc, P c ∧ isSpaceChar c = false) →
      ∀ w ∈ splitWSAux s acc, w ≠ [] ∧ ∀ c ∈ w, P c ∧ isSpaceChar c = false
  | [], acc, _, hacc, w, hw => by
    unfold splitWSAux at hw
    split at hw
    · exact absurd hw (List.not_mem_nil w)
    · next hne =>
      rw [List.mem_singleton] at hw
      subst hw
      refine ⟨by simpa [List.isEmpty_iff] using hne, ?_⟩
      intro c hc
      exact hacc c (List.mem_reverse.mp hc)
  | c :: rest, acc, hs, hacc, w, hw => by
    unfold splitWSAux at hw
    by_cases hsp : isSpaceChar c = true
    · rw [if_pos hsp] at hw
      split at hw
      · exact splitWSAux_words rest [] (fun x hx h => hs x (List.mem_cons_of_mem c hx) h)
          (by intro x hx; exact absurd hx (List.not_mem_nil x)) w hw
      · next hne =>
        rcases List.mem_cons.mp hw with h1 | h2
        · subst h1
          refine ⟨by simpa [List.isEmpty_iff] using hne, ?_⟩
          intro x hx
          exact hacc x (List.mem_reverse.mp hx)
        · exact splitWSAux_words rest [] (fun x hx h => hs x (List.mem_cons_of_mem c hx) h)
            (by intro x hx; exact absurd hx (List.not_mem_nil x)) w h2
    · rw [if_neg hsp] at hw
      have hc : isSpaceChar c = false := by
        revert hsp
        cases isSpaceChar c <;> simp
      refine splitWSAux_words rest (c :: acc)
        (fun x hx h => hs x (List.mem_cons_of_mem c hx) h) ?_ w hw
      intro x hx
      rcases List.mem_cons.mp hx with h1 | h2
      · subst h1
        exact ⟨hs x (List.mem_cons_self x rest) hc, hc⟩
      · exact hacc x h2

theorem splitWS_words {P : Char → Prop} (s : Str)
    (hs : ∀ c ∈ s, isSpaceChar c = false → P c) :
    ∀ w ∈ splitWS s, w ≠ [] ∧ ∀ c ∈ w, P c ∧ isSpaceChar c = false :=
  splitWSAux_words s [] hs (by intro x hx; exact absurd hx (List.not_mem_nil x))

theorem splitWSAux_append_word :
    ∀ (w s acc : List Char), (∀ c ∈ w, isSpaceChar c = false) →
      splitWSAux (w ++ s) acc = splitWSAux s (w.reverse ++ acc)
  | [], s, acc, _ => by simp
  | c :: w', s, acc, h => by
    have hc : isSpaceChar c = false := h c (List.mem_cons_self c w')
    simp only [List.cons_append]
    rw [show splitWSAux (c :: (w' ++ s)) acc = splitWSAux (w' ++ s) (c :: acc) by
      simp only [splitWSAux]
      rw [if_neg (by simp [hc])]]
    rw [splitWSAux_append_word w' s (c :: acc) (fun x hx => h x (List.mem_cons_of_mem c hx))]
    congr 1
    simp

theorem splitWS_joinWords :
    ∀ (ws : List Str),
      (∀ w ∈ ws, w ≠ [] ∧ ∀ c ∈ w, isSpaceChar c = false) →
      splitWS (joinWords ws) = ws
  | [], _ => rfl
  | [w], h => by
    obtain ⟨hne, hchars⟩ := h w (List.mem_singleton.mpr rfl)
    show splitWSAux (joinWords [w]) [] = [w]
    have : joinWords [w] = w ++ [] := by simp [joinWords]
    rw [this, splitWSAux_append_word w [] [] hchars]
    unfold splitWSAux
    rw [if_neg (by simpa [List.isEmpty_iff] using hne)]
    simp
  | w :: w2 :: ws, h => by
    obtain ⟨hne, hchars⟩ := h w (List.mem_cons_self w (w2 :: ws))
    show splitWSAux (joinWords (w :: w2 :: ws)) [] = w :: w2 :: ws
    rw [show joinWords (w :: w2 :: ws) = w ++ ' ' :: joinWords (w2 :: ws) from rfl]
    rw [splitWSAux_append_word w (' ' :: joinWords (w2 :: ws)) [] hchars]
    unfold splitWSAux
    rw [if_pos (by decide)]
    rw [if_neg (by simpa [List.isEmpty_iff] using hne)]
    rw [show splitWSAux (joinWords (w2 :: ws)) [] = splitWS (joinWords (w2 :: ws)) from rfl]
    rw [splitWS_joinWords (w2 :: ws) (fun x hx => h x (List.mem_cons_of_mem w hx))]
    simp

theorem mem_joinWords :
    ∀ (ws : List Str) (c : Char), c ∈ joinWords ws → c = ' ' ∨ ∃ w ∈ ws, c ∈ w
  | [], c, hc => by simp [joinWords] at hc
  | [w], c, hc => by
    right
    exact ⟨w, List.mem_singleton.mpr rfl, by simpa [joinWords] using hc⟩
  | w :: w2 :: ws, c, hc => by
    rw [show joinWords (w :: w2 :: ws) = w ++ ' ' :: joinWords (w2 :: ws) from rfl] at hc
    rcases List.mem_append.mp hc with h1 | h2
    · exact Or.inr ⟨w, List.mem_cons_self _ _, h1⟩
    · rcases List.mem_cons.mp h2 with h3 | h4
      · exact Or.inl h3
      · rcases mem_joinWords (w2 :: ws) c h4 with h5 | ⟨w', hw', hc'⟩
        · exact Or.inl h5
        · exact Or.inr ⟨w', List.mem_cons_of_mem w hw', hc'⟩

theorem joinWords_reverse_head :
    ∀ (ws : List Str),
      (∀ w ∈ ws, w ≠ [] ∧ ∀ c ∈ w, isSpaceChar c = false) → ws ≠ [] →
      ∃ c t, (joinWords ws).reverse = c :: t ∧ isSpaceChar c = false
  | [], _, hne => absurd rfl hne
  | [w], h, _ => by
    obtain ⟨hne, hchars⟩ := h w (List.mem_singleton.mpr rfl)
    have : w.reverse ≠ [] := by simpa using hne
    rcases List.exists_cons_of_ne_nil this with ⟨c, t, hct⟩
    refine ⟨c, t, by simpa [joinWords] using hct, ?_⟩
    have : c ∈ w.reverse := by rw [hct]; exact List.mem_cons_self c t
    exact hchars c (List.mem_reverse.mp this)
  | w :: w2 :: ws, h, _ => by
    obtain ⟨c, t, hct, hc⟩ := joinWords_reverse_head (w2 :: ws)
      (fun x hx => h x (List.mem_cons_of_mem w hx)) (by simp)
    refine ⟨c, t ++ ' ' :: w.reverse, ?_, hc⟩
    rw [show joinWords (w :: w2 :: ws) = w ++ ' ' :: joinWords (w2 :: ws) from rfl]
    rw [List.reverse_append, List.reverse_cons, List.append_assoc, hct]
    simp

theorem dropWhile_eq_self_of_head {l : List Char}
    (h : ∀ c t, l = c :: t → isSpaceChar c = false) :
    l.dropWhile isSpaceChar = l := by
  cases l with
  | nil => rfl
  | cons c t =>
    rw [List.dropWhile_cons_of_neg]
    simp [h c t rfl]

theorem stripList_joinWords (ws : List Str)
    (h : ∀ w ∈ ws, w ≠ [] ∧ ∀ c ∈ w, isSpaceChar c = false) :
    stripList (joinWords ws) = joinWords ws := by
  cases ws with
  | nil => rfl
  | cons w ws' =>
    obtain ⟨hne, hchars⟩ := h w (List.mem_cons_self w ws')
    have h1 : (joinWords (w :: ws')).dropWhile isSpaceChar = joinWords (w :: ws') := by
      apply dropWhile_eq_self_of_head
      intro c t hct
      rcases List.exists_cons_of_ne_nil hne with ⟨c0, w0, hw0⟩
      have hc0 : isSpaceChar c0 = false := hchars c0 (by rw [hw0]; exact List.mem_cons_self c0 w0)
      cases ws' with
      | nil =>
        have : joinWords [w] = w := by simp [joinWords]
        rw [this, hw0] at hct
        cases hct
        exact hc0
      | cons w2 ws'' =>
        rw [show joinWords (w :: w2 :: ws'') = w ++ ' ' :: joinWords (w2 :: ws'') from rfl,
          hw0] at hct
        simp only [List.cons_append] at hct
        cases hct
        exact hc0
    have h2 : ∃ c t, (joinWords (w :: ws')).reverse = c :: t ∧ isSpaceChar c = false :=
      joinWords_reverse_head (w :: ws') h (by simp)
    obtain ⟨c, t, hct, hc⟩ := h2
    unfold stripList
    rw [h1, hct, List.dropWhile_cons_of_neg (by simp [hc]), ← hct]
    simp

theorem mem_replaceHyphens_map_lowerChar (t : Str) (c : Char)
    (hc : c ∈ replaceHyphens (t.map lowerChar)) :
    lowerChar c = c ∧ c ≠ '-' := by
  unfold replaceHyphens at hc
  rcases List.mem_map.mp hc with ⟨c1, hc1, hc1e⟩
  rcases List.mem_map.mp hc1 with ⟨c0, _, hc0e⟩
  by_cases hd : c1 = '-'
  · rw [if_pos hd] at hc1e
    subst hc1e
    exact ⟨by decide, by decide⟩
  · rw [if_neg hd] at hc1e
    subst hc1e
    subst hc0e
    exact ⟨lowerChar_idem c0, hd⟩

/-- Chars of the canonical form: lowercase-fixed, hyphen-free, and every
word produced by the final split is nonempty and whitespace-free. -/
theorem canonicalize_word_shape (s : Str) :
    ∀ w ∈ splitWS (replaceHyphens ((stripList s).map lowerChar)),
      w ≠ [] ∧ ∀ c ∈ w, (lowerChar c = c ∧ c ≠ '-') ∧ isSpaceChar c = false :=
  splitWS_words _ (fun c hc _ => mem_replaceHyphens_map_lowerChar _ c hc)

theorem canonicalize_idem (s : Str) : canonicalize (canonicalize s) = canonicalize s := by
  have hws := canonicalize_word_shape s
  set ws := splitWS (replaceHyphens ((stripList s).map lowerChar)) with hwsdef
  have hwf : ∀ w ∈ ws, w ≠ [] ∧ ∀ c ∈ w, isSpaceChar c = false := by
    intro w hw
    obtain ⟨h1, h2⟩ := hws w hw
    exact ⟨h1, fun c hc => (h2 c hc).2⟩
  show canonicalize (joinWords ws) = joinWords ws
  have hstrip : stripList (joinWords ws) = joinWords ws := stripList_joinWords ws hwf
  have hlow : (joinWords ws).map lowerChar = joinWords ws := by
    apply map_eq_self_of_fixed
    intro c hc
    rcases mem_joinWords ws c hc with h1 | ⟨w, hw, hcw⟩
    · subst h1; decide
    · exact ((hws w hw).2 c hcw).1.1
  have hrep : replaceHyphens (joinWords ws) = joinWords ws := by
    apply map_eq_self_of_fixed
    intro c hc
    rcases mem_joinWords ws c hc with h1 | ⟨w, hw, hcw⟩
    · subst h1; decide
    · simp [((hws w hw).2 c hcw).1.2]
  have hsplit : splitWS (joinWords ws) = ws := splitWS_joinWords ws hwf
  unfold canonicalize
  rw [hstrip, hlow, hrep, hsplit]

/-- C8: for every string x, `canonicalize (canonicalize x) = canonicalize x`;
moreover `canonicalize "Full-Body"`, `canonicalize "full body"` and the
literal `"full body"` are all equal. -/
theorem c8_canonicalize_idempotent :
    (∀ s : Str, canonicalize (canonicalize s) = canonicalize s) ∧
    canonicalize ("Full-Body".toList) = canonicalize ("full body".toList) ∧
    canonicalize ("full body".toList) = "full body".toList :=
  ⟨canonicalize_idem, by decide, by decide⟩

/-! ## Engine lemmas -/

theorem mem_dedupeAux :
    ∀ (l seen : List Str) (a : Str), a ∈ dedupeAux seen l ↔ a ∈ l ∧ a ∉ seen
  | [], seen, a => by simp [dedupeAux]
  | x :: xs, seen, a => by
    unfold dedupeAux
    by_cases hx : x ∈ seen
    · rw [if_pos hx, mem_dedupeAux xs seen a]
      constructor
      · rintro ⟨h1, h2⟩
        exact ⟨List.mem_cons_of_mem x h1, h2⟩
      · rintro ⟨h1, h2⟩
        rcases List.mem_cons.mp h1 with rfl | h3
        · exact absurd hx h2
        · exact ⟨h3, h2⟩
    · rw [if_neg hx]
      simp only [List.mem_cons, mem_dedupeAux xs (x :: seen) a]
      constructor
      · rintro (rfl | ⟨h1, h2⟩)
        · exact ⟨Or.inl rfl, hx⟩
        · exact ⟨Or.inr h1, fun hs => h2 (Or.inr hs)⟩
      · rintro ⟨rfl | h1, h2⟩
        · exact Or.inl rfl
        · by_cases hax : a = x
          · exact Or.inl hax
          · exact Or.inr ⟨h1, by simp [hax, h2]⟩

theorem mem_dedupePreserve (l : List Str) (a : Str) :
    a ∈ dedupePreserve l ↔ a ∈ l := by
  simp [dedupePreserve, mem_dedupeAux]

/-! ## Claim C5 -/

/-- C5: a constraint condition matches iff it names a signal, that
signal's value is known, and the value equals the condition's expected
value; in particular a condition over an unknown signal never matches. -/
theorem c5_condition_matches_iff (when : Condition) (signals : Str → Option Bool) :
    (conditionMatches when signals = true ↔
      ∃ sid v, when.signal = some sid ∧ signals sid = some v ∧ when.equals = some v) ∧
    (∀ sid, when.signal = some sid → signals sid = none →
      conditionMatches when signals = false) := by
  constructor
  · cases hsig : when.signal with
    | none => simp [conditionMatches, hsig]
    | some sid =>
      cases hval : signals sid with
      | none => simp [conditionMatches, hsig, hval]
      | some v =>
        simp only [conditionMatches, hsig, hval, beq_iff_eq]
        constructor
        · intro h
          exact ⟨sid, v, rfl, hval, h.symm⟩
        · rintro ⟨sid', v', hsid', hval', heq'⟩
          cases hsid'
          rw [hval] at hval'
          cases hval'
          exact heq'.symm
  · intro sid hsig hval
    simp [conditionMatches, hsig, hval]

/-- Witness for C5 at a concrete unknown signal. -/
theorem c5_witness :
    conditionMatches ⟨some ("x".toList), some true⟩ extNone = false :=
  (c5_condition_matches_iff ⟨some ("x".toList), some true⟩ extNone).2 ("x".toList) rfl rfl

/-! ## Claim C6 -/

/-- C6: constructing the policy succeeds iff both the taxonomy version and
the graph version of the document equal the loaded versions; any mismatch
yields an error instead of a usable policy. -/
theorem c6_version_mismatch_fatal (doc : PolicyDoc) (tv gv : Str) :
    (TaggingPolicy.load doc tv gv).isOk = true ↔
      doc.taxonomy_version = tv ∧ doc.graph_version = gv := by
  unfold TaggingPolicy.load
  by_cases h1 : doc.taxonomy_version = tv
  · by_cases h2 : doc.graph_version = gv
    · simp [h1, h2, Except.isOk, Except.toBool]
    · simp [h1, h2, Except.isOk, Except.toBool]
  · simp [h1, Except.isOk, Except.toBool]

/-- Witness for C6: a matching document loads, a mismatching one fails. -/
theorem c6_witness :
    (TaggingPolicy.load ⟨"1".toList, "1".toList, "1".toList, [], [], []⟩
        ("1".toList) ("1".toList)).isOk = true ∧
    (TaggingPolicy.load ⟨"1".toList, "1".toList, "2".toList, [], [], []⟩
        ("1".toList) ("1".toList)).isOk = false := by
  constructor
  · exact (c6_version_mismatch_fatal _ _ _).mpr ⟨rfl, rfl⟩
  · by_cases h : (TaggingPolicy.load ⟨"1".toList, "1".toList, "2".toList, [], [], []⟩
        ("1".toList) ("1".toList)).isOk = true
    · have := (c6_version_mismatch_fatal _ _ _).mp h
      exact absurd this.2 (by decide)
    · simpa using h

/-! ## Claim C7 -/

/-- C7: `hint_options` on a category id not present in the taxonomy
returns empty options and `allows_freeform = false` (and, being a total
function, never raises). -/
theorem c7_hint_options_unknown (spec : TaggingSpec) (category_id : Str)
    (h : spec.findCategory category_id = none) :
    TaggingRulesEngine.hint_options spec category_id = ⟨category_id, [], false⟩ := by
  unfold TaggingRulesEngine.hint_options
  rw [h]

/-- Witness for C7 at a concrete engine and unknown id. -/
theorem c7_witness :
    exPlain.findCategory ("gaze".toList) = none ∧
    TaggingRulesEngine.hint_options exPlain ("gaze".toList) =
      ⟨"gaze".toList, [], false⟩ :=
  ⟨by decide, c7_hint_options_unknown exPlain ("gaze".toList) (by decide)⟩

/-! ## Claim C9 -/

/-- C9: appending an empty or whitespace-only tag changes neither
`evaluate` nor `categorize`: blank entries are filtered out before
canonicalization. -/
theorem c9_blank_tags_ignored (spec : TaggingSpec) (tags : List Str)
    (external_signals : Str → Option Bool) (t : Str) (h : t.all isSpaceChar = true) :
    TaggingRulesEngine.evaluate spec (tags ++ [t]) external_signals =
      TaggingRulesEngine.evaluate spec tags external_signals ∧
    TaggingRulesEngine.categorize spec (tags ++ [t]) =
      TaggingRulesEngine.categorize spec tags := by
  have hstrip : stripList t = [] := by
    have hd : t.dropWhile isSpaceChar = [] := by
      rw [List.dropWhile_eq_nil_iff]
      intro x hx
      exact List.all_eq_true.mp h x hx
    unfold stripList
    rw [hd]
    rfl
  have hnorm : normalizeTags (tags ++ [t]) = normalizeTags tags := by
    unfold normalizeTags
    rw [List.filter_append]
    simp [hstrip]
  constructor
  · unfold TaggingRulesEngine.evaluate
    rw [hnorm]
  · unfold TaggingRulesEngine.categorize
    rw [hnorm]

/-- Witness for C9 at a concrete engine, tag list and blank tag. -/
theorem c9_witness :
    ("  ".toList).all isSpaceChar = true ∧
    TaggingRulesEngine.evaluate exPlain ["full body".toList, "  ".toList] extNone =
      TaggingRulesEngine.evaluate exPlain ["full body".toList] extNone :=
  ⟨by decide,
    (c9_blank_tags_ignored exPlain ["full body".toList] extNone ("  ".toList)
      (by decide)).1⟩

/-! ## Claim C10 -/

/-- C10: extending the external-signal mapping at a key that is not a
declared external signal id leaves `evaluate` unchanged: undeclared
signal inputs cannot influence the result. -/
theorem c10_undeclared_signal_no_influence (spec : TaggingSpec) (tags : List Str)
    (external_signals : Str → Option Bool) (k : Str) (v : Bool)
    (h : k ∉ spec.external_signals) :
    TaggingRulesEngine.evaluate spec tags
        (fun s => if s == k then some v else external_signals s) =
      TaggingRulesEngine.evaluate spec tags external_signals := by
  have hsig : ∀ ts : List Str,
      spec.evaluate_signals ts (fun s => if s == k then some v else external_signals s) =
        spec.evaluate_signals ts external_signals := by
    intro ts
    funext sid
    unfold TaggingSpec.evaluate_signals
    cases hl : lookupA spec.derived_signals sid with
    | some d => simp [hl]
    | none =>
      simp only [hl]
      by_cases hmem : sid ∈ spec.external_signals
      · rw [if_pos hmem, if_pos hmem]
        have hne : (sid == k) = false := by
          rw [beq_eq_false_iff_ne]
          intro heq
          exact h (heq ▸ hmem)
        simp [hne]
      · rw [if_neg hmem, if_neg hmem]
  unfold TaggingRulesEngine.evaluate
  rw [hsig]

/-- Witness for C10 at a concrete engine and undeclared key. -/
theorem c10_witness :
    ("zzz".toList) ∉ exRelaxZero.external_signals ∧
    TaggingRulesEngine.evaluate exRelaxZero ["standing".toList]
        (fun s => if s == "zzz".toList then some true else extX s) =
      TaggingRulesEngine.evaluate exRelaxZero ["standing".toList] extX :=
  ⟨by decide,
    c10_undeclared_signal_no_influence exRelaxZero ["standing".toList] extX
      ("zzz".toList) true (by decide)⟩

/-! ## Helper lemmas for the missing-category loop -/

theorem le_foldl_max : ∀ (l : List Int) (b : Int), b ≤ l.foldl max b
  | [], _ => le_refl _
  | x :: xs, b => le_trans (le_max_left b x) (le_foldl_max xs (max b x))

theorem any_signal_false {signals : Str → Option Bool} {l : List Str}
    (h : ∀ s ∈ l, signals s ≠ some true) :
    (l.any (fun sig => signals sig == some true)) = false := by
  rw [List.any_eq_false]
  intro s hs
  simp only [beq_iff_eq]
  exact h s hs

theorem contains_eq_false_of_not_mem {l : List Str} {a : Str} (h : a ∉ l) :
    l.contains a = false := by
  simpa using h

theorem contains_eq_true_of_mem {l : List Str} {a : Str} (h : a ∈ l) :
    l.contains a = true := by
  simpa using h

/-- Any finding the missing loop emits for a category definition carries
that definition's id, and a relaxed category is always routed to
`not_required`. -/
theorem missingFindingFor_shape (spec : TaggingSpec) (signals : Str → Option Bool)
    (relaxedSet : List Str) (categorized : List (Str × List Str))
    (definition : CategoryDefinition) (p : Str × HintBucket)
    (h : missingFindingFor spec signals relaxedSet categorized definition = some p) :
    p.1 = definition.id ∧
      (relaxedSet.contains definition.id = true → p.2 = HintBucket.not_required) := by
  unfold missingFindingFor at h
  simp only [] at h
  split at h
  · exact absurd h (by simp)
  · split at h
    · exact absurd h (by simp)
    · rcases Option.map_eq_some'.mp h with ⟨b, hb, hp⟩
      subst hp
      refine ⟨rfl, ?_⟩
      intro hrel
      rw [hrel] at hb
      unfold routeMissingBucket at hb
      rcases hsev : spec.policy.missing_severity definition.id signals true
          (decide ((requirementsFor spec signals definition.id).foldl max
            definition.cardinality_min > 0))
          (isTriggered spec signals definition.id) with _ | s
      · rw [hsev] at hb
        exact absurd hb (by simp)
      · rw [hsev] at hb
        simp only [if_pos rfl] at hb
        cases hb
        rfl

/-- Entries of the per-tag policy loop have a truthy declared severity. -/
theorem tagPolicyFindings_mem {p : TaggingPolicy} {tag_set : List Str}
    {pr : Str × Str} (h : pr ∈ tagPolicyFindings p tag_set) :
    pr.1 ∈ tag_set ∧ p.tag_severity pr.1 = some pr.2 ∧ pr.2 ≠ [] := by
  rcases List.mem_filterMap.mp h with ⟨tag, htag, hf⟩
  rcases hsev : p.tag_severity tag with _ | s
  · rw [hsev] at hf
    exact absurd hf (by simp)
  · rw [hsev] at hf
    simp only [] at hf
    by_cases he : s.isEmpty = true
    · rw [if_pos he] at hf
      exact absurd hf (by simp)
    · rw [if_neg he] at hf
      cases hf
      exact ⟨htag, hsev, by simpa [List.isEmpty_iff] using he⟩

theorem mem_bucketItems (l : List (Str × HintBucket)) (b : HintBucket) (a : Str) :
    a ∈ bucketItems l b ↔ (a, b) ∈ l := by
  unfold bucketItems
  rw [List.mem_filterMap]
  constructor
  · rintro ⟨⟨x, y⟩, hp, hf⟩
    by_cases hb : y = b
    · rw [if_pos hb] at hf
      cases hf
      subst hb
      exact hp
    · rw [if_neg hb] at hf
      exact absurd hf (by simp)
  · intro hp
    exact ⟨(a, b), hp, by simp⟩

theorem buildHints_missing_required_eq (spec : TaggingSpec)
    (categorized : List (Str × List Str)) (signals : Str → Option Bool)
    (relaxedSet tag_set : List Str) :
    (buildHints spec categorized signals relaxedSet tag_set).missing_required =
      dedupePreserve
        (bucketItems (missingFindings spec signals relaxedSet categorized)
            HintBucket.missing_required ++
          tagPolicyBucket spec.policy tag_set HintBucket.missing_required) := rfl

theorem buildHints_not_required_mem (spec : TaggingSpec)
    (categorized : List (Str × List Str)) (signals : Str → Option Bool)
    (relaxedSet tag_set : List Str) (cid : Str)
    (h : (cid, HintBucket.not_required) ∈
      missingFindings spec signals relaxedSet categorized) :
    cid ∈ (buildHints spec categorized signals relaxedSet tag_set).not_required := by
  show cid ∈ dedupePreserve _
  rw [mem_dedupePreserve]
  refine List.mem_append.mpr (Or.inl (List.mem_append.mpr (Or.inr ?_)))
  exact (mem_bucketItems _ _ _).mpr h

theorem buildHints_missing_required_mem (spec : TaggingSpec)
    (categorized : List (Str × List Str)) (signals : Str → Option Bool)
    (relaxedSet tag_set : List Str) (cid : Str)
    (h : (cid, HintBucket.missing_required) ∈
      missingFindings spec signals relaxedSet categorized) :
    cid ∈ (buildHints spec categorized signals relaxedSet tag_set).missing_required := by
  rw [buildHints_missing_required_eq, mem_dedupePreserve]
  exact List.mem_append.mpr (Or.inl ((mem_bucketItems _ _ _).mpr h))

/-! ## Claim C1 -/

/-- C1 as stated is false: in `exDemoted`, category `framing` has static
minimum 1, is unrelaxed, has no missing-severity override, no
`only_when_signal` and no `unless_signal`, and no input tag maps to it —
yet it is absent from `missing_required` (the policy's `missing_required`
default severity is `warning`, demoting the finding to
`possibly_missing`). -/
theorem c1_counterexample :
    ((exDemoted.findCategory ("framing".toList)).map (fun c => c.cardinality_min)
      = some 1) ∧
    exDemoted.relaxed_categories
      (exDemoted.evaluate_signals (dedupePreserve (normalizeTags [])) extNone) = [] ∧
    truthyStr ((exDemoted.policy.getCP ("framing".toList)).only_when_signal) = none ∧
    (exDemoted.policy.getCP ("framing".toList)).unless_signal = [] ∧
    (exDemoted.policy.getCP ("framing".toList)).missing = none ∧
    catCount (exDemoted.categorize_tags (normalizeTags [])) ("framing".toList) = 0 ∧
    ("framing".toList) ∉
      (TaggingRulesEngine.evaluate exDemoted [] extNone).missing_required ∧
    ("framing".toList) ∈
      (TaggingRulesEngine.evaluate exDemoted [] extNone).possibly_missing := by
  decide

/-- C1 amended: if additionally the policy's `missing_required` default
severity resolves to `error` (the built-in default), then a statically
required, unrelaxed, unsuppressed category with fewer matching tags than
its minimum is listed in `missing_required`. -/
theorem c1_amended (spec : TaggingSpec) (tags : List Str)
    (external_signals : Str → Option Bool) (d : CategoryDefinition)
    (hd : d ∈ spec.categories)
    (hmin : 0 < d.cardinality_min)
    (hpresent : (catCount (spec.categorize_tags (normalizeTags tags)) d.id : Int) <
      d.cardinality_min)
    (hrelax : d.id ∉ spec.relaxed_categories
      (spec.evaluate_signals (dedupePreserve (normalizeTags tags)) external_signals))
    (honly : truthyStr ((spec.policy.getCP d.id).only_when_signal) = none)
    (hunless : ∀ s ∈ (spec.policy.getCP d.id).unless_signal,
      spec.evaluate_signals (dedupePreserve (normalizeTags tags)) external_signals s ≠
        some true)
    (hover : ((spec.policy.getCP d.id).missing).join = none)
    (hdef : lookupD spec.policy.defaults ("missing_required".toList) ("error".toList) =
      "error".toList) :
    d.id ∈ (TaggingRulesEngine.evaluate spec tags external_signals).missing_required := by
  have hallow : spec.policy.signal_allows_missing d.id
      (spec.evaluate_signals (dedupePreserve (normalizeTags tags)) external_signals) =
        true := by
    unfold TaggingPolicy.signal_allows_missing
    simp only []
    rw [honly]
    simp only [any_signal_false hunless, Bool.not_false]
  have hsev : spec.policy.missing_severity d.id
      (spec.evaluate_signals (dedupePreserve (normalizeTags tags)) external_signals)
      false true
      (isTriggered spec
        (spec.evaluate_signals (dedupePreserve (normalizeTags tags)) external_signals)
        d.id) = some ("error".toList) := by
    unfold TaggingPolicy.missing_severity
    simp only [hallow, hover, hdef, Bool.not_true, Bool.false_eq_true, if_false,
      if_true, Bool.not_false]
  have hrmpos : (0 : Int) <
      (requirementsFor spec
        (spec.evaluate_signals (dedupePreserve (normalizeTags tags)) external_signals)
        d.id).foldl max d.cardinality_min :=
    lt_of_lt_of_le hmin (le_foldl_max _ _)
  have hlt : (catCount (spec.categorize_tags (normalizeTags tags)) d.id : Int) <
      (requirementsFor spec
        (spec.evaluate_signals (dedupePreserve (normalizeTags tags)) external_signals)
        d.id).foldl max d.cardinality_min :=
    lt_of_lt_of_le hpresent (le_foldl_max _ _)
  have hmf : missingFindingFor spec
      (spec.evaluate_signals (dedupePreserve (normalizeTags tags)) external_signals)
      (spec.relaxed_categories
        (spec.evaluate_signals (dedupePreserve (normalizeTags tags)) external_signals))
      (spec.categorize_tags (normalizeTags tags)) d =
        some (d.id, HintBucket.missing_required) := by
    unfold missingFindingFor
    simp only [decide_eq_true hrmpos, decide_eq_true hlt,
      contains_eq_false_of_not_mem hrelax, Bool.true_or, Bool.true_and, Bool.not_true,
      Bool.false_eq_true, if_false, hsev, routeMissingBucket, severityBucket,
      beq_self_eq_true, if_true, Option.map_some']
  exact buildHints_missing_required_mem spec
    (spec.categorize_tags (normalizeTags tags))
    (spec.evaluate_signals (dedupePreserve (normalizeTags tags)) external_signals)
    (spec.relaxed_categories
      (spec.evaluate_signals (dedupePreserve (normalizeTags tags)) external_signals))
    (dedupePreserve (normalizeTags tags)) d.id
    (List.mem_filterMap.mpr ⟨d, hd, hmf⟩)

/-- Witness for the amended C1 at a concrete engine. -/
theorem c1_witness :
    0 < (mkCat ("framing".toList) 1 1 ["full body".toList]).cardinality_min ∧
    ("framing".toList) ∈
      (TaggingRulesEngine.evaluate exPlain [] extNone).missing_required :=
  ⟨by decide,
    c1_amended exPlain [] extNone (mkCat ("framing".toList) 1 1 ["full body".toList])
      (by decide) (by decide) (by decide) (by decide) (by decide)
      (by decide) (by decide) (by decide)⟩

/-! ## Claim C2 -/

/-- C2 as stated is false: in `exMinZero`, category `pose` has effective
minimum 0 (static minimum 0, no require rules) and present count 0 — not
strictly below the minimum — yet a missing finding is produced (routed to
`possibly_missing` by the category's `missing: warning` policy entry). -/
theorem c2_counterexample :
    ((exMinZero.findCategory ("pose".toList)).map (fun c => c.cardinality_min)
      = some 0) ∧
    exMinZero.require_constraints = [] ∧
    catCount (exMinZero.categorize_tags (normalizeTags [])) ("pose".toList) = 0 ∧
    ("pose".toList) ∈
      (TaggingRulesEngine.evaluate exMinZero [] extNone).possibly_missing := by
  decide

/-- C2 amended: a missing-category finding is produced only when the
present count is strictly below the effective minimum, **or** the
effective minimum is 0 and no tag maps to the category; if the present
count is at or above the effective minimum and the two are not both zero,
the missing loop produces no finding for that category in any bucket. -/
theorem c2_amended (spec : TaggingSpec) (signals : Str → Option Bool)
    (relaxedSet : List Str) (categorized : List (Str × List Str))
    (d : CategoryDefinition)
    (hwf : (spec.categories.map (fun c => c.id)).Nodup)
    (hd : d ∈ spec.categories)
    (hge : (requirementsFor spec signals d.id).foldl max d.cardinality_min ≤
      (catCount categorized d.id : Int))
    (hpos : 0 < (requirementsFor spec signals d.id).foldl max d.cardinality_min ∨
      0 < catCount categorized d.id) :
    ∀ b, (d.id, b) ∉ missingFindings spec signals relaxedSet categorized := by
  intro b hmem
  rcases List.mem_filterMap.mp hmem with ⟨d', hd', hf⟩
  have hid : d.id = d'.id := (missingFindingFor_shape _ _ _ _ _ _ hf).1
  have hdd : d' = d := List.inj_on_of_nodup_map hwf hd' hd hid.symm
  subst hdd
  unfold missingFindingFor at hf
  simp only [] at hf
  split at hf
  · exact absurd hf (by simp)
  · split at hf
    · next hme => exact absurd hf (by simp)
    · next hme =>
      simp only [Bool.not_eq_true, Bool.not_eq_false', Bool.or_eq_true, Bool.and_eq_true,
        decide_eq_true_eq] at hme
      rcases hme with ⟨_, h2⟩ | ⟨h3, h4⟩
      · omega
      · rcases hpos with h5 | h6
        · omega
        · omega

/-- Witness for the amended C2 at a concrete engine with a satisfied
minimum. -/
theorem c2_witness :
    ((exPlain.categories.map (fun c => c.id)).Nodup ∧
      (1 : Int) ≤ (catCount (exPlain.categorize_tags (normalizeTags ["full body".toList]))
        ("framing".toList) : Int)) ∧
    ("framing".toList, HintBucket.missing_required) ∉
      missingFindings exPlain extNone []
        (exPlain.categorize_tags (normalizeTags ["full body".toList])) ∧
    ("framing".toList, HintBucket.possibly_missing) ∉
      missingFindings exPlain extNone []
        (exPlain.categorize_tags (normalizeTags ["full body".toList])) ∧
    ("framing".toList, HintBucket.not_required) ∉
      missingFindings exPlain extNone []
        (exPlain.categorize_tags (normalizeTags ["full body".toList])) :=
  ⟨⟨by decide, by decide⟩,
    c2_amended exPlain extNone []
      (exPlain.categorize_tags (normalizeTags ["full body".toList]))
      (mkCat ("framing".toList) 1 1 ["full body".toList])
      (by decide) (by decide) (by decide) (by decide) HintBucket.missing_required,
    c2_amended exPlain extNone []
      (exPlain.categorize_tags (normalizeTags ["full body".toList]))
      (mkCat ("framing".toList) 1 1 ["full body".toList])
      (by decide) (by decide) (by decide) (by decide) HintBucket.possibly_missing,
    c2_amended exPlain extNone []
      (exPlain.categorize_tags (normalizeTags ["full body".toList]))
      (mkCat ("framing".toList) 1 1 ["full body".toList])
      (by decide) (by decide) (by decide) (by decide) HintBucket.not_required⟩

/-! ## Claim C3 -/

/-- C3 as stated is false: in `exRelaxZero` the relax rule on `x == true`
matches (`x` supplied true) and the relaxed category `pose` has no
matching tags, yet `pose` does not appear in `not_required`: the missing
loop skips it entirely because it is neither statically required nor
triggered nor covered by a policy entry. -/
theorem c3_counterexample :
    exRelaxZero.relaxations =
      [(⟨some ("x".toList), some true⟩, [some ("pose".toList)])] ∧
    extX ("x".toList) = some true ∧
    ("pose".toList) ∈ exRelaxZero.relaxed_categories
      (exRelaxZero.evaluate_signals (dedupePreserve (normalizeTags [])) extX) ∧
    catCount (exRelaxZero.categorize_tags (normalizeTags [])) ("pose".toList) = 0 ∧
    ("pose".toList) ∉
      (TaggingRulesEngine.evaluate exRelaxZero [] extX).not_required := by
  decide

/-- C3 amended: if the relax rule's condition matches (its signal is
supplied true and is a declared, underived external signal), the relaxed
category is a declared category with a non-negative static minimum, the
category is absent, **and** the category is checked at all (statically
required, triggered, or carrying a policy entry — otherwise the missing
loop skips it), then it lands in `not_required`; and it is never put into
`missing_required` unless an unrelated per-tag policy finding uses the
same string. -/
theorem c3_amended (spec : TaggingSpec) (tags : List Str)
    (external_signals : Str → Option Bool)
    (when : Condition) (entries : List (Option Str)) (sid : Str)
    (d : CategoryDefinition) (cid : Str)
    (hrel : (when, entries) ∈ spec.relaxations)
    (hsig : when.signal = some sid)
    (heq : when.equals = some true)
    (hext : external_signals sid = some true)
    (hdecl : sid ∈ spec.external_signals)
    (hnotder : lookupA spec.derived_signals sid = none)
    (hentry : some cid ∈ entries)
    (hcid : cid ≠ [])
    (hd : d ∈ spec.categories)
    (hid : d.id = cid)
    (hmin0 : 0 ≤ d.cardinality_min)
    (hcheck : 0 < d.cardinality_min ∨
      isTriggered spec
        (spec.evaluate_signals (dedupePreserve (normalizeTags tags)) external_signals)
        cid = true ∨
      spec.policy.has_category_missing_rule cid = true)
    (habsent : catCount (spec.categorize_tags (normalizeTags tags)) cid = 0)
    (htag : (spec.policy.tag_severity cid).getD [] = []) :
    cid ∈ (TaggingRulesEngine.evaluate spec tags external_signals).not_required ∧
    cid ∉ (TaggingRulesEngine.evaluate spec tags external_signals).missing_required := by
  subst hid
  have hsigval : spec.evaluate_signals (dedupePreserve (normalizeTags tags))
      external_signals sid = some true := by
    unfold TaggingSpec.evaluate_signals
    simp only [hnotder]
    rw [if_pos hdecl, hext]
  have hmatch : conditionMatches when
      (spec.evaluate_signals (dedupePreserve (normalizeTags tags)) external_signals) =
        true := by
    simp [conditionMatches, hsig, hsigval, heq]
  have hrelmem : d.id ∈ spec.relaxed_categories
      (spec.evaluate_signals (dedupePreserve (normalizeTags tags)) external_signals) := by
    unfold TaggingSpec.relaxed_categories
    refine List.mem_flatMap.mpr ⟨(when, entries), List.mem_filter.mpr ⟨hrel, hmatch⟩, ?_⟩
    refine List.mem_filterMap.mpr ⟨some d.id, hentry, ?_⟩
    simp [truthyStr, List.isEmpty_iff, hcid]
  have hcont : (spec.relaxed_categories
      (spec.evaluate_signals (dedupePreserve (normalizeTags tags)) external_signals)
      ).contains d.id = true := contains_eq_true_of_mem hrelmem
  have hsev : ∀ req trig : Bool, spec.policy.missing_severity d.id
      (spec.evaluate_signals (dedupePreserve (normalizeTags tags)) external_signals)
      true req trig = some ("ignore".toList) := by
    intro req trig
    unfold TaggingPolicy.missing_severity
    simp
  have hrm : (0 : Int) ≤ (requirementsFor spec
      (spec.evaluate_signals (dedupePreserve (normalizeTags tags)) external_signals)
      d.id).foldl max d.cardinality_min :=
    le_trans hmin0 (le_foldl_max _ _)
  have hmf : missingFindingFor spec
      (spec.evaluate_signals (dedupePreserve (normalizeTags tags)) external_signals)
      (spec.relaxed_categories
        (spec.evaluate_signals (dedupePreserve (normalizeTags tags)) external_signals))
      (spec.categorize_tags (normalizeTags tags)) d =
        some (d.id, HintBucket.not_required) := by
    rcases lt_or_eq_of_le hrm with hpos | hzero
    · unfold missingFindingFor
      simp only [habsent, hcont, decide_eq_true hpos, Nat.cast_zero,
        decide_eq_true (show (0 : Int) = 0 from rfl), Bool.true_or, Bool.or_true,
        Bool.true_and, Bool.not_true, Bool.false_eq_true, if_false, hsev,
        routeMissingBucket, severityBucket, if_true, Option.map_some']
    · have htrig : isTriggered spec
          (spec.evaluate_signals (dedupePreserve (normalizeTags tags)) external_signals)
          d.id = true ∨ spec.policy.has_category_missing_rule d.id = true := by
        rcases hcheck with h1 | h2 | h3
        · exfalso
          have hlt : (0 : Int) < (requirementsFor spec
              (spec.evaluate_signals (dedupePreserve (normalizeTags tags))
                external_signals) d.id).foldl max d.cardinality_min :=
            lt_of_lt_of_le h1 (le_foldl_max _ _)
          omega
        · exact Or.inl h2
        · exact Or.inr h3
      have hsc : (decide ((requirementsFor spec
            (spec.evaluate_signals (dedupePreserve (normalizeTags tags))
              external_signals) d.id).foldl max d.cardinality_min > 0) ||
          isTriggered spec
            (spec.evaluate_signals (dedupePreserve (normalizeTags tags))
              external_signals) d.id ||
          spec.policy.has_category_missing_rule d.id) = true := by
        rcases htrig with h1 | h2
        · simp [h1]
        · simp [h2]
      unfold missingFindingFor
      simp only [habsent, hcont, hsc, Nat.cast_zero,
        decide_eq_true (show ((requirementsFor spec
          (spec.evaluate_signals (dedupePreserve (normalizeTags tags))
            external_signals) d.id).foldl max d.cardinality_min = 0) from hzero.symm),
        decide_eq_true (show (0 : Int) = 0 from rfl), Bool.true_and, Bool.and_true,
        Bool.or_true, Bool.not_true, Bool.false_eq_true, if_false, hsev,
        routeMissingBucket, severityBucket, if_true, Option.map_some']
      simp
  constructor
  · exact buildHints_not_required_mem spec
      (spec.categorize_tags (normalizeTags tags))
      (spec.evaluate_signals (dedupePreserve (normalizeTags tags)) external_signals)
      (spec.relaxed_categories
        (spec.evaluate_signals (dedupePreserve (normalizeTags tags)) external_signals))
      (dedupePreserve (normalizeTags tags)) d.id
      (List.mem_filterMap.mpr ⟨d, hd, hmf⟩)
  · intro hmem
    have hmem' : d.id ∈ (buildHints spec
        (spec.categorize_tags (normalizeTags tags))
        (spec.evaluate_signals (dedupePreserve (normalizeTags tags)) external_signals)
        (spec.relaxed_categories
          (spec.evaluate_signals (dedupePreserve (normalizeTags tags)) external_signals))
        (dedupePreserve (normalizeTags tags))).missing_required := hmem
    rw [buildHints_missing_required_eq, mem_dedupePreserve] at hmem'
    rcases List.mem_append.mp hmem' with h1 | h2
    · rcases List.mem_filterMap.mp ((mem_bucketItems _ _ _).mp h1) with ⟨d', hd', hf⟩
      obtain ⟨hfst, hsnd⟩ := missingFindingFor_shape _ _ _ _ _ _ hf
      have : HintBucket.missing_required = HintBucket.not_required := by
        have hcont' : (spec.relaxed_categories
            (spec.evaluate_signals (dedupePreserve (normalizeTags tags))
              external_signals)).contains d'.id = true := by
          rw [← hfst]
          exact hcont
        exact hsnd hcont'
      exact absurd this (by decide)
    · rcases List.mem_filterMap.mp h2 with ⟨pr, hpr, hif⟩
      obtain ⟨_, hsevpr, hne⟩ := tagPolicyFindings_mem hpr
      have hfst : pr.1 = d.id := by
        by_cases hc : severityBucket pr.2 = some HintBucket.missing_required
        · rw [if_pos hc] at hif
          exact Option.some.inj hif
        · rw [if_neg hc] at hif
          exact absurd hif (by simp)
      rw [hfst] at hsevpr
      rw [hsevpr] at htag
      exact hne htag

/-- Witness for the amended C3 at a concrete engine with a statically
required, relaxed, absent category. -/
theorem c3_witness :
    extX ("x".toList) = some true ∧
    ("pose".toList) ∈ (TaggingRulesEngine.evaluate exRelaxOne [] extX).not_required ∧
    ("pose".toList) ∉ (TaggingRulesEngine.evaluate exRelaxOne [] extX).missing_required :=
  ⟨rfl,
    (c3_amended exRelaxOne [] extX ⟨some ("x".toList), some true⟩ [some ("pose".toList)]
      ("x".toList) (mkCat ("pose".toList) 1 1 ["standing".toList]) ("pose".toList)
      (by decide) rfl rfl rfl (by decide) (by decide) (by decide) (by decide)
      (by decide) rfl (by decide) (Or.inl (by decide)) (by decide) (by decide)).1,
    (c3_amended exRelaxOne [] extX ⟨some ("x".toList), some true⟩ [some ("pose".toList)]
      ("x".toList) (mkCat ("pose".toList) 1 1 ["standing".toList]) ("pose".toList)
      (by decide) rfl rfl rfl (by decide) (by decide) (by decide) (by decide)
      (by decide) rfl (by decide) (Or.inl (by decide)) (by decide) (by decide)).2⟩

/-! ## Claim C4 -/

/-- C4 as stated is false: in `exReqMax`, category `expression` has static
max 1 and exactly one canonical tag maps to it, yet with signal `s` true
it is flagged in `invalid` (a matched require rule's `max: 0` is
exceeded); without the signal it is not flagged, so the `invalid` bucket
also depends on supplied signals. -/
theorem c4_counterexample :
    ((exReqMax.findCategory ("expression".toList)).map (fun c => c.cardinality_max)
      = some 1) ∧
    catCount (exReqMax.categorize_tags (normalizeTags ["smile".toList]))
      ("expression".toList) = 1 ∧
    ("expression".toList) ∈
      (TaggingRulesEngine.evaluate exReqMax ["smile".toList] extS).invalidItems ∧
    ("expression".toList) ∉
      (TaggingRulesEngine.evaluate exReqMax ["smile".toList] extNone).invalidItems := by
  decide

/-- C4 amended: a category with static max 1 or listed as a singleton is
flagged in the `invalid` bucket **whenever** more than one canonical tag
maps to it, for every signal assignment (the singleton check itself is
unconditional); the converse does not hold, because a matched require
rule's exceeded maximum also flags a category in `invalid`. -/
theorem c4_amended (spec : TaggingSpec) (tags : List Str)
    (external_signals : Str → Option Bool) (cid : Str)
    (hscope : cid ∈ spec.singleton_categories ∨
      (spec.findCategory cid).map (fun c => c.cardinality_max) = some 1)
    (hcount : 1 < catCount (spec.categorize_tags (normalizeTags tags)) cid) :
    cid ∈ (TaggingRulesEngine.evaluate spec tags external_signals).invalidItems := by
  obtain ⟨ts, hts, hlen⟩ : ∃ ts,
      lookupA (spec.categorize_tags (normalizeTags tags)) cid = some ts ∧
        1 < ts.length := by
    unfold catCount at hcount
    cases hl : lookupA (spec.categorize_tags (normalizeTags tags)) cid with
    | none =>
      rw [hl] at hcount
      simp at hcount
    | some ts =>
      rw [hl] at hcount
      exact ⟨ts, rfl, by simpa using hcount⟩
  have hmem : (cid, ts) ∈ spec.categorize_tags (normalizeTags tags) := by
    unfold lookupA at hts
    rcases Option.map_eq_some'.mp hts with ⟨⟨k, ts'⟩, hfind, hsnd⟩
    have hts' : ts' = ts := hsnd
    have hk : (k == cid) = true := by simpa using List.find?_some hfind
    have hkeq : k = cid := by simpa using hk
    subst hts'
    subst hkeq
    exact List.mem_of_find?_eq_some hfind
  have hsv : cid ∈ singletonViolations spec (spec.categorize_tags (normalizeTags tags)) := by
    refine List.mem_filterMap.mpr ⟨(cid, ts), hmem, ?_⟩
    have h2 : decide (ts.length > 1) = true := decide_eq_true hlen
    rcases hscope with h | h
    · simp [singletonViolations, h, h2]
    · simp [singletonViolations, h, h2]
  have hinv : cid ∈
      requireMaxViolations spec
          (spec.evaluate_signals (dedupePreserve (normalizeTags tags)) external_signals)
          (spec.categorize_tags (normalizeTags tags)) ++
        singletonViolations spec (spec.categorize_tags (normalizeTags tags)) :=
    List.mem_append.mpr (Or.inr hsv)
  have hne : (requireMaxViolations spec
      (spec.evaluate_signals (dedupePreserve (normalizeTags tags)) external_signals)
      (spec.categorize_tags (normalizeTags tags)) ++
      singletonViolations spec (spec.categorize_tags (normalizeTags tags))).isEmpty
        = false := by
    cases hE : (requireMaxViolations spec
        (spec.evaluate_signals (dedupePreserve (normalizeTags tags)) external_signals)
        (spec.categorize_tags (normalizeTags tags)) ++
        singletonViolations spec (spec.categorize_tags (normalizeTags tags))).isEmpty
    · rfl
    · exact absurd (List.isEmpty_iff.mp hE ▸ hinv) (List.not_mem_nil cid)
  have hsome : (TaggingRulesEngine.evaluate spec tags external_signals).invalid =
      some (dedupePreserve
        (requireMaxViolations spec
            (spec.evaluate_signals (dedupePreserve (normalizeTags tags))
              external_signals)
            (spec.categorize_tags (normalizeTags tags)) ++
          singletonViolations spec (spec.categorize_tags (normalizeTags tags)))) := by
    show (if (requireMaxViolations spec
          (spec.evaluate_signals (dedupePreserve (normalizeTags tags)) external_signals)
          (spec.categorize_tags (normalizeTags tags)) ++
          singletonViolations spec
            (spec.categorize_tags (normalizeTags tags))).isEmpty = true then none
        else some (dedupePreserve _)) = some _
    rw [hne]
    simp
  unfold Hints.invalidItems
  rw [hsome]
  simpa [mem_dedupePreserve] using hinv

/-- Witness for the amended C4 at a concrete engine with two values of a
max-1 category. -/
theorem c4_witness :
    1 < catCount
      (exReqMax.categorize_tags (normalizeTags ["smile".toList, "frown".toList]))
      ("expression".toList) ∧
    ("expression".toList) ∈
      (TaggingRulesEngine.evaluate exReqMax ["smile".toList, "frown".toList]
        extNone).invalidItems :=
  ⟨by decide,
    c4_amended exReqMax ["smile".toList, "frown".toList] extNone ("expression".toList)
      (Or.inr (by decide)) (by decide)⟩

end TagTidy
